import Mathlib

/-!
Verification development for the YouTube-summary service (src/app.py).

The source is shallowly embedded: Python strings become `List Char`,
Python `str.strip` / `str.rfind` / slicing become the corresponding list
functions, the external caption-listing / caption-fetch / generative-text
services become explicit oracles, and the `while` loop of
`TranscriptChunker.chunk_text` — which is genuinely partial — is given
an explicit fuel parameter, so that `chunk_text fuel text n = some cs`
states that the Python loop returns `cs` within `fuel` iterations and
`= none` for every fuel states divergence.
-/

namespace YTSum

/-- Python whitespace, as in `str.strip()` / `str.isspace()`:
ASCII space, tab, LF, CR, VT, FF, the C1 separators, NEL, NBSP and the
Unicode space separators. -/
def isPySpace (c : Char) : Bool :=
  c = ' ' || c = '\t' || c = '\n' || c = '\r' || c = '\x0b' || c = '\x0c' ||
  c = '\x1c' || c = '\x1d' || c = '\x1e' || c = '\x1f' || c = '\x85' || c = '\xa0' ||
  c = '\u1680' || ('\u2000' ≤ c && c ≤ '\u200a') || c = '\u2028' || c = '\u2029' ||
  c = '\u202f' || c = '\u205f' || c = '\u3000'

/-- Python `s.strip()`: drop whitespace from both ends. -/
def pyStrip (s : List Char) : List Char :=
  ((s.dropWhile isPySpace).reverse.dropWhile isPySpace).reverse

/-- Helper for `rfindDot`: largest index `i < n` with `s[i] = '.'`,
scanning downwards from `n`. -/
def rfindDotAux (s : List Char) : Nat → Option Nat
  | 0 => none
  | n + 1 => if s.getD n ' ' = '.' then some n else rfindDotAux s n

/-- Python `text.rfind('.', 0, stop)`: the largest index `i` with
`i < min stop (length text)` and `text[i] = '.'`; `none` plays the
role of Python's `-1`. -/
def rfindDot (s : List Char) (stop : Nat) : Option Nat :=
  rfindDotAux s (min stop s.length)

/-- `CHUNK_SIZE = 4000` from src/app.py. -/
def CHUNK_SIZE : Nat := 4000

/-- `TranscriptChunker.chunk_text` (src/app.py lines 79-88), with an
explicit fuel bounding the number of `while` iterations.  One loop step:
if `len(text) > max_length` then `split_index = text.rfind('.', 0,
max_length)` (falling back to `max_length` when the result is `-1`),
emit `text[:split_index].strip()` and continue on
`text[split_index:].strip()`; otherwise emit the remaining text as the
final chunk.  `none` means the fuel ran out, i.e. the Python loop has
not returned within that many iterations. -/
def chunk_text : Nat → List Char → Nat → Option (List (List Char))
  | 0, _, _ => none
  | fuel + 1, text, maxLength =>
    if maxLength < text.length then
      (chunk_text fuel (pyStrip (text.drop ((rfindDot text maxLength).getD maxLength)))
          maxLength).map
        (fun cs => pyStrip (text.take ((rfindDot text maxLength).getD maxLength)) :: cs)
    else
      some [text]

/-- `GapJoin chunks text` — `text` is exactly the chunks in order,
interleaved with (possibly empty) whitespace-only gap strings: the
concatenation of the chunks, ignoring only whitespace trimmed at chunk
boundaries, reconstructs the original text. -/
inductive GapJoin : List (List Char) → List Char → Prop
  | nil (g : List Char) (hg : g.all isPySpace = true) : GapJoin [] g
  | cons (g c : List Char) (cs : List (List Char)) (rest : List Char)
      (hg : g.all isPySpace = true) (h : GapJoin cs rest) :
      GapJoin (c :: cs) (g ++ c ++ rest)

/-- The concrete input on which `chunk_text` diverges: `".aaaaaa"`. -/
def dotRunText : List Char := ['.', 'a', 'a', 'a', 'a', 'a', 'a']

/-- `SummaryMode` enum from src/app.py. -/
inductive SummaryMode
  | KEY_POINTS
  | TIMELINE
  | KEYWORDS
deriving DecidableEq

/-- `TranscriptEntry` dataclass.  In the source `start` is a float; every
claim treats entries opaquely (no arithmetic beyond the `mm:ss`
rendering of non-negative whole seconds), so it is modelled as `Nat`. -/
structure TranscriptEntry where
  start : Nat
  text : List Char
deriving DecidableEq

/-- `f"{n:02}"`: decimal rendering left-padded with `'0'` to width 2. -/
def pad2 (n : Nat) : List Char :=
  if n < 10 then '0' :: (Nat.repr n).data else (Nat.repr n).data

/-- `format_seconds` (src/app.py lines 155-157): `divmod(seconds, 60)`
rendered as `mm:ss`. -/
def format_seconds (seconds : Nat) : List Char :=
  pad2 (seconds / 60) ++ [':'] ++ pad2 (seconds % 60)

/-- `TranscriptFormatter.format_with_timestamps`: newline-joined
`[mm:ss] text` lines. -/
def format_with_timestamps (transcript : List TranscriptEntry) : List Char :=
  List.intercalate ['\n']
    (transcript.map (fun e => ['['] ++ format_seconds e.start ++ [']', ' '] ++ e.text))

/-- `TranscriptFormatter.format_plain`: space-joined entry texts. -/
def format_plain (transcript : List TranscriptEntry) : List Char :=
  List.intercalate [' '] (transcript.map (fun e => e.text))

/-- The part of each prompt template (src/app.py lines 96-124) that
precedes the `transcript` interpolation point. -/
def promptPrefix : SummaryMode → List Char
  | SummaryMode.KEY_POINTS =>
      "\n다음은 유튜브 영상의 자막입니다. 자막 언어와 무관하게 내용을 **한국어**로 간단히 요약해줘.\n중요한 핵심 내용만 **3~5문장**으로 정리해줘.\n\n자막:\n".data
  | SummaryMode.TIMELINE =>
      "\n다음 유튜브 자막을 보고 **시간 흐름 순서에 따라** 내용을 정리해줘.\n자막 언어와 상관없이 **한국어**로 정리하고, **타임스탬프 기준으로 구간별 요점**을 알려줘.\n\n형식:\n- 00:00~02:30: 내용 요약\n\n자막:\n".data
  | SummaryMode.KEYWORDS =>
      "\n다음 자막에서 중요한 **핵심 키워드** 5~10개를 추출해줘.\n각 키워드마다 **간단한 설명**을 붙이고, 자막 언어와 관계없이 반드시 **한국어**로 출력해줘.\n\n형식:\n- 키워드: 설명\n\n자막:\n".data

/-- `SummaryGenerator.build_prompt`: the mode's template with the
transcript substituted for its interpolation point (each template ends
with the transcript followed by one newline). -/
def build_prompt (transcript : List Char) (mode : SummaryMode) : List Char :=
  promptPrefix mode ++ transcript ++ ['\n']

/-- The fixed prefix of the reduction prompt in `summarize_in_chunks`
(src/app.py line 149), up to and including the two newlines before the
joined chunk summaries. -/
def reductionHeader : List Char :=
  "다음은 영상 요약 조각들입니다. 이들을 하나의 요약으로 통합해줘.\n\n".data

/-- The `'\n'.join` separator. -/
def newlineChar : List Char := ['\n']

/-- The per-chunk loop of `summarize_in_chunks` (src/app.py lines
141-146) against a generative-text oracle `gen` (`Except.error` models a
raised service exception, which `generate_summary` re-raises).  Returns
the collected summaries (or the first error) together with the ordered
list of prompts actually sent to the service. -/
def summarizeLoop (gen : List Char → Except (List Char) (List Char)) (mode : SummaryMode) :
    List (List Char) → Except (List Char) (List (List Char)) × List (List Char)
  | [] => (Except.ok [], [])
  | c :: cs =>
    match gen (build_prompt c mode) with
    | Except.error e => (Except.error e, [build_prompt c mode])
    | Except.ok s =>
      match summarizeLoop gen mode cs with
      | (Except.error e, ps) => (Except.error e, build_prompt c mode :: ps)
      | (Except.ok sums, ps) => (Except.ok (s :: sums), build_prompt c mode :: ps)

/-- `SummaryGenerator.summarize_in_chunks` (src/app.py lines 135-153):
chunk the transcript with `CHUNK_SIZE`, summarize each chunk in order,
then issue one reduction call on the header followed by the
newline-joined chunk summaries.  The result carries the final summary
(or first error) and the ordered list of prompts sent to the service;
`none` means the chunker itself did not return within `fuel`
iterations. -/
def summarize_in_chunks (gen : List Char → Except (List Char) (List Char)) (fuel : Nat)
    (transcript : List Char) (mode : SummaryMode) :
    Option (Except (List Char) (List Char) × List (List Char)) :=
  match chunk_text fuel transcript CHUNK_SIZE with
  | none => none
  | some chunks =>
    match summarizeLoop gen mode chunks with
    | (Except.error e, ps) => some (Except.error e, ps)
    | (Except.ok sums, ps) =>
      match gen (reductionHeader ++ List.intercalate newlineChar sums) with
      | Except.error e =>
          some (Except.error e, ps ++ [reductionHeader ++ List.intercalate newlineChar sums])
      | Except.ok finalSummary =>
          some (Except.ok finalSummary, ps ++ [reductionHeader ++ List.intercalate newlineChar sums])

/-- Status events written to the Streamlit status placeholder:
`st.info`, `st.error`, and `status.empty()`. -/
inductive StatusMsg
  | info (m : List Char)
  | error (m : List Char)
  | clear
deriving DecidableEq

/-- The external caption services seen by `TranscriptFetcher`:
the listing call (which may raise, carrying the exception text) and the
per-language find-and-fetch call (`none` models a raised exception). -/
structure CaptionService where
  listing : Except (List Char) (List (List Char))
  fetchLang : List Char → Option (List TranscriptEntry)

/-- Python `repr` of the available-language list, as interpolated into
the second status message. -/
def langsRepr (langs : List (List Char)) : List Char :=
  ['['] ++ List.intercalate (", ".data)
      (langs.map (fun l => [Char.ofNat 39] ++ l ++ [Char.ofNat 39])) ++ [']']

/-- Status message of src/app.py line 35. -/
def msgListing : List Char := "1. 자막 목록을 확인하는 중...".data

/-- Status message of src/app.py line 39. -/
def msgAvailable (langs : List (List Char)) : List Char :=
  "2. 사용 가능한 자막: ".data ++ langsRepr langs

/-- Status message of src/app.py line 48: no supported caption language. -/
def msgNoCompat : List Char := "3. 지원하는 언어의 자막을 찾을 수 없습니다.".data

/-- Status message of src/app.py line 58. -/
def msgFetching (lang : List Char) : List Char :=
  "3. ".data ++ lang ++ " 자막을 가져오는 중...".data

/-- Status message of src/app.py line 53: listing failure. -/
def msgErrorOccurred (e : List Char) : List Char := "오류 발생: ".data ++ e

/-- `TranscriptFetcher._fetch_transcript` (src/app.py lines 56-65): try
to find and fetch the chosen language's track (modelled as one fallible
call); on success clear the status and return the entries, on an
exception return `None`. -/
def fetchOneLang (svc : CaptionService) (lang : List Char) :
    Option (List TranscriptEntry) × List StatusMsg :=
  match svc.fetchLang lang with
  | some entries => (some entries, [StatusMsg.info (msgFetching lang), StatusMsg.clear])
  | none => (none, [StatusMsg.info (msgFetching lang)])

/-- `TranscriptFetcher.fetch` (src/app.py lines 33-54): list the caption
tracks (an exception is caught and reported as an error status with the
cause, returning `None`); prefer `'ko'`, fall back to `'en'`, otherwise
report "no supported language" and return `None`.  The second component
is the ordered list of status events emitted. -/
def fetch (svc : CaptionService) : Option (List TranscriptEntry) × List StatusMsg :=
  match svc.listing with
  | Except.error e =>
      (none, [StatusMsg.info msgListing, StatusMsg.error (msgErrorOccurred e)])
  | Except.ok langs =>
    if "ko".data ∈ langs then
      ((fetchOneLang svc "ko".data).1,
        StatusMsg.info msgListing :: StatusMsg.info (msgAvailable langs) ::
          (fetchOneLang svc "ko".data).2)
    else if "en".data ∈ langs then
      ((fetchOneLang svc "en".data).1,
        StatusMsg.info msgListing :: StatusMsg.info (msgAvailable langs) ::
          (fetchOneLang svc "en".data).2)
    else
      (none, [StatusMsg.info msgListing, StatusMsg.info (msgAvailable langs),
        StatusMsg.info msgNoCompat])

/-- `[0-9A-Za-z_-]`. -/
def isIdChar (c : Char) : Bool :=
  ('0' ≤ c && c ≤ '9') || ('A' ≤ c && c ≤ 'Z') || ('a' ≤ c && c ≤ 'z') || c = '_' || c = '-'

/-- `[0-9A-Za-z_-]{11}` matched greedily at the start of `t`. -/
def idCandidate (t : List Char) : Option (List Char) :=
  if (t.take 11).length = 11 && (t.take 11).all isIdChar then some (t.take 11) else none

/-- One attempt of the pattern `(?:v=|\/)([0-9A-Za-z_-]{11}).*` at the
start of `s` (the trailing `.*` is unconstraining since it may match the
empty string). -/
def matchHere (s : List Char) : Option (List Char) :=
  match s with
  | 'v' :: '=' :: t => idCandidate t
  | '/' :: t => idCandidate t
  | _ => none

/-- `extract_video_id` (src/app.py lines 159-161): `re.search` scans
left to right and returns capture group 1 of the leftmost match, or
`None`. -/
def extract_video_id : List Char → Option (List Char)
  | [] => none
  | c :: rest =>
    match matchHere (c :: rest) with
    | some id => some id
    | none => extract_video_id rest

/-- The per-mode body of the `main` loop (src/app.py lines 199-203):
timestamped rendering for `TIMELINE`, plain otherwise, then
`summarize_in_chunks`. -/
def processMode (gen : List Char → Except (List Char) (List Char)) (fuel : Nat)
    (transcript_data : List TranscriptEntry) (mode : SummaryMode) :
    Option (Except (List Char) (List Char) × List (List Char)) :=
  summarize_in_chunks gen fuel
    (if mode = SummaryMode.TIMELINE then format_with_timestamps transcript_data
     else format_plain transcript_data)
    mode

/-- The mode loop of `main` (src/app.py lines 196-209): modes are
processed sequentially; a summarization exception (`Except.error`) is
caught for that mode alone and processing continues; successes are
recorded in order in `summaries_output`.  Returns the recorded
(mode, summary) pairs and the concatenated prompt traces; `none` means
some mode's chunker never returned (the whole program hangs). -/
def runModes (gen : List Char → Except (List Char) (List Char)) (fuel : Nat)
    (td : List TranscriptEntry) :
    List SummaryMode → Option (List (SummaryMode × List Char) × List (List Char))
  | [] => some ([], [])
  | m :: ms =>
    match processMode gen fuel td m with
    | none => none
    | some (r, tr1) =>
      match runModes gen fuel td ms with
      | none => none
      | some (out, trs) =>
        match r with
        | Except.error _ => some (out, tr1 ++ trs)
        | Except.ok s => some ((m, s) :: out, tr1 ++ trs)

/-- Caller-visible outcome of `main` after the fetch step. -/
inductive MainResult
  | noCaptions
  | done (out : List (SummaryMode × List Char))
deriving DecidableEq

/-- `main` after `fetcher.fetch` (src/app.py lines 185-209): the single
Python check `if not transcript_data` treats `None` and the empty entry
list identically, terminating with the no-captions error before any
summarization; otherwise the mode loop runs.  The second component is
the list of all prompts sent to the generative-text service. -/
def mainAfterFetch (gen : List Char → Except (List Char) (List Char)) (fuel : Nat)
    (transcript_data : Option (List TranscriptEntry)) (modes : List SummaryMode) :
    Option (MainResult × List (List Char)) :=
  match transcript_data with
  | none => some (MainResult.noCaptions, [])
  | some td =>
    if td.isEmpty then some (MainResult.noCaptions, [])
    else Option.map (fun r => (MainResult.done r.1, r.2)) (runModes gen fuel td modes)

/-- An always-successful generative-text oracle answering `"S"`,
used by concrete instantiations. -/
def sgenW : List Char → List Char := fun _ => ['S']

/-- A one-entry transcript used by concrete orchestrator instantiations. -/
def tdW : List TranscriptEntry := [⟨0, ['h', 'i']⟩]

/-- The TIMELINE chunk prompt for `tdW`. -/
def tlPromptW : List Char := build_prompt (format_with_timestamps tdW) SummaryMode.TIMELINE

/-- A generative-text oracle that fails exactly on the TIMELINE chunk
prompt for `tdW` and answers `"S"` otherwise. -/
def genW : List Char → Except (List Char) (List Char) :=
  fun p => if p = tlPromptW then Except.error ['e'] else Except.ok ['S']

/-- The KEY_POINTS chunk prompt for `tdW`. -/
def kpPromptW : List Char := build_prompt (format_plain tdW) SummaryMode.KEY_POINTS

/-- The reduction prompt after the single successful KEY_POINTS chunk. -/
def redPromptW : List Char := reductionHeader ++ List.intercalate newlineChar [['S']]

/-- Expected orchestrator output for `genW` on modes `[TIMELINE, KEY_POINTS]`. -/
def outW : List (SummaryMode × List Char) := [(SummaryMode.KEY_POINTS, ['S'])]

/-- Expected prompt trace for `genW` on modes `[TIMELINE, KEY_POINTS]`. -/
def trW : List (List Char) := [tlPromptW, kpPromptW, redPromptW]

/-- A caption service offering `ko` and `en`, with a fetchable `ko` track. -/
def svcW : CaptionService :=
  ⟨Except.ok ["ko".data, "en".data],
   fun l => if l = "ko".data then some [⟨3, "안녕".data⟩] else none⟩

/-- A caption service whose listing call raises. -/
def svcU : CaptionService := ⟨Except.error "boom".data, fun _ => none⟩

/-- A caption service with captions only in an unsupported language. -/
def svcF : CaptionService := ⟨Except.ok ["fr".data], fun _ => none⟩

/-- A concrete YouTube URL. -/
def urlW : List Char := "https://www.youtube.com/watch?v=dQw4w9WgXcQ".data

/-! ## Helper lemmas -/

/-- Unfolding equation for the zero-fuel case. -/
theorem chunk_text_zero (text : List Char) (maxLength : Nat) :
    chunk_text 0 text maxLength = none := rfl

/-- Unfolding equation for one loop step of `chunk_text`. -/
theorem chunk_text_succ (fuel : Nat) (text : List Char) (maxLength : Nat) :
    chunk_text (fuel + 1) text maxLength =
      if maxLength < text.length then
        (chunk_text fuel (pyStrip (text.drop ((rfindDot text maxLength).getD maxLength)))
            maxLength).map
          (fun cs => pyStrip (text.take ((rfindDot text maxLength).getD maxLength)) :: cs)
      else
        some [text] := rfl

/-- Every element of a `takeWhile p` satisfies `p`. -/
theorem all_takeWhile (p : Char → Bool) (l : List Char) : (l.takeWhile p).all p = true := by
  induction l with
  | nil => rfl
  | cons c t ih =>
    by_cases hc : p c
    · simp [List.takeWhile, hc, ih]
    · simp [List.takeWhile, hc]

/-- `pyStrip` only removes whitespace from the two ends. -/
theorem pyStrip_decomp (s : List Char) :
    ∃ a b, a.all isPySpace = true ∧ b.all isPySpace = true ∧ s = a ++ pyStrip s ++ b := by
  refine ⟨s.takeWhile isPySpace, ((s.dropWhile isPySpace).reverse.takeWhile isPySpace).reverse,
    all_takeWhile isPySpace s, ?_, ?_⟩
  · rw [List.all_reverse]
    exact all_takeWhile isPySpace _
  · have ht : s.dropWhile isPySpace =
        pyStrip s ++ ((s.dropWhile isPySpace).reverse.takeWhile isPySpace).reverse := by
      simp only [pyStrip]
      rw [← List.reverse_append, List.takeWhile_append_dropWhile, List.reverse_reverse]
    conv_lhs => rw [← List.takeWhile_append_dropWhile isPySpace s, ht]
    rw [List.append_assoc]

/-- Stripping never lengthens a string. -/
theorem pyStrip_length_le (s : List Char) : (pyStrip s).length ≤ s.length := by
  simp only [pyStrip, List.length_reverse]
  calc ((s.dropWhile isPySpace).reverse.dropWhile isPySpace).length
      ≤ (s.dropWhile isPySpace).reverse.length := (List.dropWhile_sublist _).length_le
    _ = (s.dropWhile isPySpace).length := List.length_reverse _
    _ ≤ s.length := (List.dropWhile_sublist _).length_le

/-- A whitespace-only gap can be glued to the front of a `GapJoin`. -/
theorem GapJoin.prependSpace {cs : List (List Char)} {t g : List Char}
    (h : GapJoin cs t) (hg : g.all isPySpace = true) : GapJoin cs (g ++ t) := by
  induction h with
  | nil g' hg' =>
    exact GapJoin.nil (g ++ g') (by simp [List.all_append, hg, hg'])
  | cons g' c cs' rest hg' h' ih =>
    have e : g ++ (g' ++ c ++ rest) = (g ++ g') ++ c ++ rest := by simp [List.append_assoc]
    rw [e]
    exact GapJoin.cons (g ++ g') c cs' rest (by simp [List.all_append, hg, hg']) h'

/-- A whitespace-only gap can be glued to the back of a `GapJoin`. -/
theorem GapJoin.appendSpace {cs : List (List Char)} {t g : List Char}
    (h : GapJoin cs t) (hg : g.all isPySpace = true) : GapJoin cs (t ++ g) := by
  induction h with
  | nil g' hg' =>
    exact GapJoin.nil (g' ++ g) (by simp [List.all_append, hg, hg'])
  | cons g' c cs' rest hg' h' ih =>
    have e : (g' ++ c ++ rest) ++ g = g' ++ c ++ (rest ++ g) := by simp [List.append_assoc]
    rw [e]
    exact GapJoin.cons g' c cs' (rest ++ g) hg' ih

/-- What a `some` answer of `rfindDotAux` means: an in-range dot with no
later dot below the bound. -/
theorem rfindDotAux_some_spec (s : List Char) :
    ∀ n i, rfindDotAux s n = some i →
      i < n ∧ s.getD i ' ' = '.' ∧ ∀ j, i < j → j < n → s.getD j ' ' ≠ '.' := by
  intro n
  induction n with
  | zero => intro i h; simp [rfindDotAux] at h
  | succ m ih =>
    intro i h
    simp only [rfindDotAux] at h
    by_cases hd : s.getD m ' ' = '.'
    · rw [if_pos hd] at h
      obtain rfl : m = i := Option.some.inj h
      exact ⟨Nat.lt_succ_self m, hd, fun j hj hj' => absurd hj' (by omega)⟩
    · rw [if_neg hd] at h
      obtain ⟨h1, h2, h3⟩ := ih i h
      refine ⟨Nat.lt_succ_of_lt h1, h2, fun j hij hjm => ?_⟩
      rcases Nat.lt_succ_iff_lt_or_eq.mp hjm with hlt | rfl
      · exact h3 j hij hlt
      · exact hd

/-- A `none` answer of `rfindDotAux`: no dot below the bound. -/
theorem rfindDotAux_none_spec (s : List Char) :
    ∀ n, rfindDotAux s n = none → ∀ j, j < n → s.getD j ' ' ≠ '.' := by
  intro n
  induction n with
  | zero => intro _ j hj; omega
  | succ m ih =>
    intro h j hj
    simp only [rfindDotAux] at h
    by_cases hd : s.getD m ' ' = '.'
    · rw [if_pos hd] at h; exact absurd h (by simp)
    · rw [if_neg hd] at h
      rcases Nat.lt_succ_iff_lt_or_eq.mp hj with hlt | rfl
      · exact ih h j hlt
      · exact hd

/-- `rfindDot s stop = some i`: position `i` holds the rightmost dot
strictly before `stop`. -/
theorem rfindDot_some_spec (s : List Char) (stop i : Nat) (h : rfindDot s stop = some i) :
    i < stop ∧ i < s.length ∧ s.getD i ' ' = '.' ∧
      ∀ j, i < j → j < stop → s.getD j ' ' ≠ '.' := by
  obtain ⟨h1, h2, h3⟩ := rfindDotAux_some_spec s (min stop s.length) i h
  refine ⟨lt_of_lt_of_le h1 (Nat.min_le_left _ _),
    lt_of_lt_of_le h1 (Nat.min_le_right _ _), h2, fun j hij hjstop => ?_⟩
  by_cases hjlen : j < s.length
  · exact h3 j hij (lt_min hjstop hjlen)
  · rw [List.getD_eq_default _ _ (by omega)]
    decide

/-- `rfindDot s stop = none`: no dot strictly before `stop`. -/
theorem rfindDot_none_spec (s : List Char) (stop : Nat) (h : rfindDot s stop = none) :
    ∀ j, j < stop → s.getD j ' ' ≠ '.' := by
  intro j hj
  by_cases hjlen : j < s.length
  · exact rfindDotAux_none_spec s (min stop s.length) h j (lt_min hj hjlen)
  · rw [List.getD_eq_default _ _ (by omega)]
    decide

/-- The head of `s.drop i` is `s.getD i`. -/
theorem headD_drop (s : List Char) : ∀ i, (s.drop i).headD ' ' = s.getD i ' ' := by
  induction s with
  | nil => intro i; cases i <;> rfl
  | cons c t ih =>
    intro i
    cases i with
    | zero => rfl
    | succ j => exact ih j

/-! ## Chunker claims -/

/-- C1: whenever `chunk_text` returns (for any fuel, any text and any
positive `max_length`), the returned chunk sequence, interleaved with
whitespace-only gap strings — exactly the whitespace trimmed at chunk
boundaries — reconstructs the original text. -/
theorem chunk_text_reconstructs (fuel : Nat) (text : List Char) (maxLength : Nat)
    (chunks : List (List Char)) (_hpos : 0 < maxLength)
    (h : chunk_text fuel text maxLength = some chunks) : GapJoin chunks text := by
  induction fuel generalizing text chunks with
  | zero => simp [chunk_text_zero] at h
  | succ n ih =>
    rw [chunk_text_succ] at h
    by_cases hlt : maxLength < text.length
    · rw [if_pos hlt] at h
      simp only [Option.map_eq_some'] at h
      obtain ⟨cs, hcs, hchunks⟩ := h
      subst hchunks
      have hrest := ih _ _ hcs
      set i := (rfindDot text maxLength).getD maxLength with hi
      set T := pyStrip (text.take i) with hT
      set D := pyStrip (text.drop i) with hD
      obtain ⟨a, b, ha, hb, hdec⟩ := pyStrip_decomp (text.drop i)
      have hdec1 : text.drop i = a ++ D ++ b := by rw [hD]; exact hdec
      have hdropJ : GapJoin cs (text.drop i) := by
        rw [hdec1, List.append_assoc]
        exact (hrest.appendSpace hb).prependSpace ha
      obtain ⟨a2, b2, ha2, hb2, hdec2⟩ := pyStrip_decomp (text.take i)
      have hdec3 : text.take i = a2 ++ T ++ b2 := by rw [hT]; exact hdec2
      have hfin : GapJoin (T :: cs) (a2 ++ T ++ (b2 ++ text.drop i)) :=
        GapJoin.cons a2 T cs (b2 ++ text.drop i) ha2 (hdropJ.prependSpace hb2)
      have etext : text = a2 ++ T ++ (b2 ++ text.drop i) := by
        conv_lhs => rw [← List.take_append_drop i text]
        rw [hdec3]
        simp [List.append_assoc]
      rw [etext]
      exact hfin
    · rw [if_neg hlt] at h
      obtain rfl : [text] = chunks := Option.some.inj h
      have h0 := GapJoin.cons [] text [] [] rfl (GapJoin.nil [] rfl)
      simpa using h0

/-- Witness for C1 at `chunk_text 2 "aaaa  .bbb" 6 = some ["aaaa", ".bbb"]`:
the two spaces trimmed at the chunk boundary are the only characters
separating the chunks inside the original text. -/
theorem chunk_text_reconstructs_witness :
    (0 : Nat) < 6 ∧ chunk_text 2 "aaaa  .bbb".data 6 = some ["aaaa".data, ".bbb".data] ∧
      GapJoin ["aaaa".data, ".bbb".data] "aaaa  .bbb".data :=
  ⟨by decide, by decide,
    chunk_text_reconstructs 2 "aaaa  .bbb".data 6 ["aaaa".data, ".bbb".data]
      (by decide) (by decide)⟩

/-- C3: the claim that `chunk_text` terminates on every input is wrong:
on `".aaaaaa"` with `max_length = 5` the rightmost dot in the window is
at index 0, so `text[:0].strip() = ""` is appended and
`text[0:].strip()` leaves the text unchanged — the loop never returns,
for any number of iterations. -/
theorem chunk_text_diverges_on_dotRun : ∀ fuel, chunk_text fuel dotRunText 5 = none := by
  intro fuel
  induction fuel with
  | zero => rfl
  | succ n ih =>
    rw [chunk_text_succ, if_pos (show (5 : Nat) < dotRunText.length by decide)]
    have e : pyStrip (dotRunText.drop ((rfindDot dotRunText 5).getD 5)) = dotRunText := by
      decide
    rw [e, ih]
    rfl

/-- C4 counterexample: on `"abc. def"` with `max_length = 5` a sentence
terminator exists before the bound (`rfindDot` reports index 3), yet the
emitted first chunk is `"abc"`, which does not end with `'.'` — the cut
excludes the terminator, contradicting the claim that the cut point is
inclusive of it. -/
theorem chunk_cut_claim_counterexample :
    rfindDot "abc. def".data 5 = some 3 ∧
      chunk_text 2 "abc. def".data 5 = some ["abc".data, ". def".data] ∧
      ("abc".data.getLast? = some '.' → False) :=
  ⟨by decide, by decide, by decide⟩

/-- C4 (amended): whenever the remaining text exceeds `max_length` and a
`'.'` exists strictly before offset `max_length`, the chunker cuts at the
rightmost such terminator with the cut point exclusive of the
terminator: the emitted chunk is the trimmed text strictly before the
`'.'`, and the remainder begins with that `'.'`; only when no terminator
exists before `max_length` does it cut exactly at `max_length`. -/
theorem chunk_cut_rule (text : List Char) (maxLength fuel : Nat) (chunks : List (List Char))
    (hlen : maxLength < text.length) (h : chunk_text (fuel + 1) text maxLength = some chunks) :
    (∀ i, rfindDot text maxLength = some i →
        text.getD i ' ' = '.' ∧ i < maxLength ∧
          (∀ j, i < j → j < maxLength → text.getD j ' ' ≠ '.') ∧
          (text.drop i).headD ' ' = '.' ∧
          ∃ cs, chunks = pyStrip (text.take i) :: cs ∧
            chunk_text fuel (pyStrip (text.drop i)) maxLength = some cs) ∧
      (rfindDot text maxLength = none →
        (∀ j, j < maxLength → text.getD j ' ' ≠ '.') ∧
          ∃ cs, chunks = pyStrip (text.take maxLength) :: cs ∧
            chunk_text fuel (pyStrip (text.drop maxLength)) maxLength = some cs) := by
  rw [chunk_text_succ, if_pos hlen] at h
  constructor
  · intro i hi
    rw [hi] at h
    simp only [Option.getD_some, Option.map_eq_some'] at h
    obtain ⟨cs, hcs, hchunks⟩ := h
    obtain ⟨h1, _, h3, h4⟩ := rfindDot_some_spec text maxLength i hi
    exact ⟨h3, h1, h4, by rw [headD_drop]; exact h3, cs, hchunks.symm, hcs⟩
  · intro hn
    rw [hn] at h
    simp only [Option.getD_none, Option.map_eq_some'] at h
    obtain ⟨cs, hcs, hchunks⟩ := h
    exact ⟨rfindDot_none_spec text maxLength hn, cs, hchunks.symm, hcs⟩

/-- Witness for the amended C4 at `"abc. def"`, `max_length = 5`: the
rightmost in-window terminator sits at index 3 and the remainder after
the cut begins with it. -/
theorem chunk_cut_rule_witness :
    "abc. def".data.getD 3 ' ' = '.' ∧ ("abc. def".data.drop 3).headD ' ' = '.' := by
  have hc := (chunk_cut_rule "abc. def".data 5 1 ["abc".data, ". def".data]
      (by decide) (by decide)).1 3 (by decide)
  exact ⟨hc.1, hc.2.2.2.1⟩

/-- C5 counterexample: `chunk_text "  .ab" 4` returns an empty chunk
although the input is not empty — the text strictly before the in-window
terminator is whitespace-only and strips to `""`. -/
theorem chunk_empty_chunk_counterexample :
    chunk_text 2 "  .ab".data 4 = some [[], ".ab".data] ∧
      "  .ab".data ≠ [] ∧ ([] : List Char) ∈ [([] : List Char), ".ab".data] :=
  ⟨by decide, by decide, by decide⟩

/-- C5 (amended): whenever `chunk_text` returns, every chunk has length
at most `max_length` (unconditionally — even hard cuts respect the
bound), and the empty input yields the single chunk `""`; but an empty
chunk can also be returned for a nonempty input (see the
counterexample), so "never returns an empty chunk except for a wholly
empty input" does not hold. -/
theorem chunk_invariants (fuel : Nat) (text : List Char) (maxLength : Nat)
    (chunks : List (List Char)) (_hpos : 0 < maxLength)
    (h : chunk_text fuel text maxLength = some chunks) :
    (∀ c ∈ chunks, c.length ≤ maxLength) ∧ (text = [] → chunks = [[]]) := by
  induction fuel generalizing text chunks with
  | zero => simp [chunk_text_zero] at h
  | succ n ih =>
    rw [chunk_text_succ] at h
    by_cases hlt : maxLength < text.length
    · rw [if_pos hlt] at h
      simp only [Option.map_eq_some'] at h
      obtain ⟨cs, hcs, hchunks⟩ := h
      subst hchunks
      have hrec := ih _ _ hcs
      have hile : (rfindDot text maxLength).getD maxLength ≤ maxLength := by
        cases hf : rfindDot text maxLength with
        | none => simp
        | some j =>
          simpa using le_of_lt (rfindDot_some_spec text maxLength j hf).1
      constructor
      · intro c hc
        rcases List.mem_cons.mp hc with rfl | hmem
        · calc (pyStrip (text.take ((rfindDot text maxLength).getD maxLength))).length
              ≤ (text.take ((rfindDot text maxLength).getD maxLength)).length :=
                pyStrip_length_le _
            _ ≤ maxLength := by
                rw [List.length_take]
                omega
        · exact hrec.1 c hmem
      · intro h0
        subst h0
        simp at hlt
    · rw [if_neg hlt] at h
      obtain rfl : [text] = chunks := Option.some.inj h
      refine ⟨fun c hc => ?_, fun h0 => by rw [h0]⟩
      rcases List.mem_singleton.mp hc with rfl
      omega

/-- Witness for the amended C5: both chunks of
`chunk_text 2 "aaaa  .bbb" 6` are within the length bound. -/
theorem chunk_invariants_witness :
    (0 : Nat) < 6 ∧ ∀ c ∈ ["aaaa".data, ".bbb".data], c.length ≤ 6 :=
  ⟨by decide,
    (chunk_invariants 2 "aaaa  .bbb".data 6 ["aaaa".data, ".bbb".data]
      (by decide) (by decide)).1⟩

/-! ## Summarization claims -/

/-- When every generative call succeeds, the per-chunk loop returns the
summaries of the chunk prompts and the prompts themselves, both in chunk
order. -/
theorem summarizeLoop_ok (sgen : List Char → List Char) (mode : SummaryMode) :
    ∀ cs : List (List Char),
      summarizeLoop (fun p => Except.ok (sgen p)) mode cs =
        (Except.ok (cs.map (fun c => sgen (build_prompt c mode))),
          cs.map (fun c => build_prompt c mode)) := by
  intro cs
  induction cs with
  | nil => rfl
  | cons c cs ih => simp [summarizeLoop, ih]

/-- C2: with an always-successful generative-text service,
`summarize_in_chunks` sends exactly the per-chunk prompts in chunk order
followed by one reduction prompt — `chunks.length + 1` calls in total —
and the reduction prompt is the fixed header followed by every per-chunk
summary joined by newlines in chunk order. -/
theorem summarize_call_trace (sgen : List Char → List Char) (fuel : Nat)
    (transcript : List Char) (mode : SummaryMode) (chunks : List (List Char))
    (h : chunk_text fuel transcript CHUNK_SIZE = some chunks) :
    summarize_in_chunks (fun p => Except.ok (sgen p)) fuel transcript mode =
        some (Except.ok (sgen (reductionHeader ++ List.intercalate newlineChar
            (chunks.map (fun c => sgen (build_prompt c mode))))),
          chunks.map (fun c => build_prompt c mode) ++
            [reductionHeader ++ List.intercalate newlineChar
              (chunks.map (fun c => sgen (build_prompt c mode)))]) ∧
      (chunks.map (fun c => build_prompt c mode) ++
          [reductionHeader ++ List.intercalate newlineChar
            (chunks.map (fun c => sgen (build_prompt c mode)))]).length =
        chunks.length + 1 := by
  constructor
  · simp only [summarize_in_chunks, h, summarizeLoop_ok]
  · simp

/-- Witness for C2: the one-chunk transcript `"hi"` in KEY_POINTS mode
still causes two service calls — the chunk prompt plus the reduction
prompt ending in the newline-join of the single chunk summary. -/
theorem summarize_call_trace_witness :
    summarize_in_chunks (fun p => Except.ok (sgenW p)) 1 ['h', 'i'] SummaryMode.KEY_POINTS =
        some (Except.ok (sgenW (reductionHeader ++ List.intercalate newlineChar
            ([['h', 'i']].map (fun c => sgenW (build_prompt c SummaryMode.KEY_POINTS))))),
          [['h', 'i']].map (fun c => build_prompt c SummaryMode.KEY_POINTS) ++
            [reductionHeader ++ List.intercalate newlineChar
              ([['h', 'i']].map (fun c => sgenW (build_prompt c SummaryMode.KEY_POINTS)))]) ∧
      ([['h', 'i']].map (fun c => build_prompt c SummaryMode.KEY_POINTS) ++
          [reductionHeader ++ List.intercalate newlineChar
            ([['h', 'i']].map (fun c => sgenW (build_prompt c SummaryMode.KEY_POINTS)))]).length =
        [['h', 'i']].length + 1 :=
  summarize_call_trace sgenW 1 ['h', 'i'] SummaryMode.KEY_POINTS [['h', 'i']] (by decide)

/-! ## Caption selection claims -/

/-- `_fetch_transcript` returns exactly the selected language's fetch
result, whatever it is. -/
theorem fetchOneLang_fst (svc : CaptionService) (lang : List Char) :
    (fetchOneLang svc lang).1 = svc.fetchLang lang := by
  cases h : svc.fetchLang lang <;> simp [fetchOneLang, h]

/-- C6: given a successful listing, the fetcher consults the fixed
priority `[ko, en]`: if `ko` is available the result is exactly the `ko`
track fetch, else if `en` is available exactly the `en` track fetch,
else no track at all together with the "no supported language" status —
so the result never mixes entries of two languages. -/
theorem fetch_priority (svc : CaptionService) (langs : List (List Char))
    (h : svc.listing = Except.ok langs) :
    ("ko".data ∈ langs → (fetch svc).1 = svc.fetchLang "ko".data) ∧
      ("ko".data ∉ langs → "en".data ∈ langs → (fetch svc).1 = svc.fetchLang "en".data) ∧
      ("ko".data ∉ langs → "en".data ∉ langs →
        (fetch svc).1 = none ∧
          (fetch svc).2 = [StatusMsg.info msgListing, StatusMsg.info (msgAvailable langs),
            StatusMsg.info msgNoCompat]) := by
  refine ⟨fun hko => ?_, fun hko hen => ?_, fun hko hen => ?_⟩
  · simp [fetch, h, hko, fetchOneLang_fst]
  · simp [fetch, h, hko, hen, fetchOneLang_fst]
  · simp [fetch, h, hko, hen]

/-- Witness for C6: with available languages `[ko, en]` the fetcher
returns exactly the `ko` track. -/
theorem fetch_priority_witness :
    svcW.listing = Except.ok ["ko".data, "en".data] ∧
      ("ko".data ∈ ["ko".data, "en".data] → (fetch svcW).1 = svcW.fetchLang "ko".data) :=
  ⟨rfl, (fetch_priority svcW ["ko".data, "en".data] rfl).1⟩

/-- C7 counterexample: a failed listing (`svcU`) and a listing with no
supported language (`svcF`) both make `fetch` return `None` — the value
handed to the caller is identical, so the two outcomes are not
distinguishable by the caller. -/
theorem fetch_caller_indistinguishable :
    (fetch svcU).1 = none ∧ (fetch svcF).1 = none ∧ (fetch svcU).1 = (fetch svcF).1 :=
  ⟨by decide, by decide, by decide⟩

/-- C7 (amended): captions-without-supported-language and
listing-failure both return `None` to the caller; they are distinguished
only in the emitted status messages — an error status carrying the cause
for the failed listing versus the "no supported language" info status. -/
theorem fetch_unavailable_vs_nocompat (s1 s2 : CaptionService) (e : List Char)
    (langs : List (List Char)) (h1 : s1.listing = Except.error e)
    (h2 : s2.listing = Except.ok langs) (hko : "ko".data ∉ langs)
    (hen : "en".data ∉ langs) :
    (fetch s1).1 = none ∧ (fetch s2).1 = none ∧
      (fetch s1).2 = [StatusMsg.info msgListing, StatusMsg.error (msgErrorOccurred e)] ∧
      (fetch s2).2 = [StatusMsg.info msgListing, StatusMsg.info (msgAvailable langs),
        StatusMsg.info msgNoCompat] ∧
      (fetch s1).2 ≠ (fetch s2).2 := by
  have e1 : fetch s1 =
      (none, [StatusMsg.info msgListing, StatusMsg.error (msgErrorOccurred e)]) := by
    simp [fetch, h1]
  have e2 : fetch s2 =
      (none, [StatusMsg.info msgListing, StatusMsg.info (msgAvailable langs),
        StatusMsg.info msgNoCompat]) := by
    simp [fetch, h2, hko, hen]
  refine ⟨by rw [e1], by rw [e2], by rw [e1], by rw [e2], ?_⟩
  rw [e1, e2]
  simp

/-- Witness for the amended C7 at `svcU` (listing raises `"boom"`) and
`svcF` (only `fr` captions): equal `None` results, different status
traces. -/
theorem fetch_unavailable_vs_nocompat_witness :
    (fetch svcU).1 = none ∧ (fetch svcF).1 = none ∧ (fetch svcU).2 ≠ (fetch svcF).2 := by
  have hw := fetch_unavailable_vs_nocompat svcU svcF "boom".data ["fr".data] rfl rfl
      (by decide) (by decide)
  exact ⟨hw.1, hw.2.1, hw.2.2.2.2⟩

/-! ## Orchestrator claims -/

/-- C8: whenever the mode loop returns, the recorded result map is
exactly the (mode, summary) pairs of the modes whose summarization
succeeded, in processing order: a failing mode contributes nothing,
modes after it are still processed, and earlier successes are kept. -/
theorem runModes_isolated_failure (gen : List Char → Except (List Char) (List Char))
    (fuel : Nat) (td : List TranscriptEntry) (modes : List SummaryMode)
    (out : List (SummaryMode × List Char)) (tr : List (List Char))
    (h : runModes gen fuel td modes = some (out, tr)) :
    out = modes.filterMap (fun m =>
      match processMode gen fuel td m with
      | some (Except.ok s, _) => some (m, s)
      | _ => none) := by
  induction modes generalizing out tr with
  | nil =>
    simp only [runModes, Option.some.injEq, Prod.mk.injEq] at h
    obtain ⟨h1, _⟩ := h
    rw [← h1]
    rfl
  | cons m ms ih =>
    simp only [runModes] at h
    cases hp : processMode gen fuel td m with
    | none =>
      rw [hp] at h
      simp at h
    | some rt =>
      obtain ⟨r, tr1⟩ := rt
      rw [hp] at h
      cases hr : runModes gen fuel td ms with
      | none =>
        rw [hr] at h
        simp at h
      | some ot =>
        obtain ⟨out2, trs⟩ := ot
        rw [hr] at h
        cases r with
        | error e0 =>
          simp only [Option.some.injEq, Prod.mk.injEq] at h
          obtain ⟨h1, _⟩ := h
          rw [← h1]
          simp only [List.filterMap_cons, hp]
          exact ih out2 trs hr
        | ok s =>
          simp only [Option.some.injEq, Prod.mk.injEq] at h
          obtain ⟨h1, _⟩ := h
          rw [← h1]
          simp only [List.filterMap_cons, hp]
          rw [ih out2 trs hr]

/-- Witness for C8: with `genW` the TIMELINE mode fails on its chunk
call while KEY_POINTS succeeds, so the result map holds exactly the
KEY_POINTS summary and all three attempted prompts are traced. -/
theorem runModes_isolated_failure_witness :
    runModes genW 1 tdW [SummaryMode.TIMELINE, SummaryMode.KEY_POINTS] = some (outW, trW) ∧
      outW = [SummaryMode.TIMELINE, SummaryMode.KEY_POINTS].filterMap (fun m =>
        match processMode genW 1 tdW m with
        | some (Except.ok s, _) => some (m, s)
        | _ => none) := by
  have hW : runModes genW 1 tdW [SummaryMode.TIMELINE, SummaryMode.KEY_POINTS] =
      some (outW, trW) := by decide
  exact ⟨hW, runModes_isolated_failure genW 1 tdW _ outW trW hW⟩

/-! ## Video-id extraction claim -/

/-- C9: `extract_video_id` implements leftmost-match search for
`(?:v=|\/)([0-9A-Za-z_-]{11}).*`: if some suffix position matches and no
earlier position does, the captured 11 characters of that leftmost match
are returned; if no position matches, the result is `none` — and the
function is total, so it never raises. -/
theorem extract_video_id_leftmost (s : List Char) :
    (∀ i id, matchHere (s.drop i) = some id →
        (∀ j, j < i → matchHere (s.drop j) = none) → extract_video_id s = some id) ∧
      ((∀ i, i < s.length → matchHere (s.drop i) = none) → extract_video_id s = none) := by
  induction s with
  | nil =>
    constructor
    · intro i id hm _
      rw [List.drop_nil] at hm
      simp [matchHere] at hm
    · intro _
      rfl
  | cons c rest ih =>
    constructor
    · intro i id hm hnone
      cases i with
      | zero =>
        rw [List.drop_zero] at hm
        simp [extract_video_id, hm]
      | succ i2 =>
        have h0 : matchHere (c :: rest) = none := by
          simpa using hnone 0 (Nat.succ_pos i2)
        simp only [extract_video_id, h0]
        rw [List.drop_succ_cons] at hm
        refine ih.1 i2 id hm fun j hj => ?_
        simpa [List.drop_succ_cons] using hnone (j + 1) (by omega)
    · intro hall
      have h0 : matchHere (c :: rest) = none := by
        simpa using hall 0 (by simp)
      simp only [extract_video_id, h0]
      refine ih.2 fun i hi => ?_
      simpa [List.drop_succ_cons] using hall (i + 1) (by simpa using Nat.succ_lt_succ hi)

/-- Witness for C9: in the standard watch URL the 11 characters after
`v=` at position 30 form the leftmost match and are returned. -/
theorem extract_video_id_leftmost_witness :
    matchHere (urlW.drop 30) = some "dQw4w9WgXcQ".data ∧
      extract_video_id urlW = some "dQw4w9WgXcQ".data :=
  ⟨by decide, (extract_video_id_leftmost urlW).1 30 "dQw4w9WgXcQ".data (by decide) (by decide)⟩

/-! ## Empty-transcript claim -/

/-- C10: an empty fetched entry list is treated by `main`'s single
`if not transcript_data` check exactly like a fetch failure: the
pipeline stops with the no-captions outcome, no prompt is ever sent for
any mode, and the two cases are indistinguishable at that check. -/
theorem empty_transcript_like_no_transcript
    (gen : List Char → Except (List Char) (List Char)) (fuel : Nat)
    (modes : List SummaryMode) :
    mainAfterFetch gen fuel (some []) modes = some (MainResult.noCaptions, []) ∧
      mainAfterFetch gen fuel none modes = some (MainResult.noCaptions, []) ∧
      mainAfterFetch gen fuel (some []) modes = mainAfterFetch gen fuel none modes :=
  ⟨rfl, rfl, rfl⟩

end YTSum
